import Mathlib

/-!
Shallow embedding of the ink-mini-code-editor text-input core
(`src/source/index.tsx`): the decoration style table, the segment
builder `createSegments`, the style merger `mergeDecorationStyles`,
the `useInput` edit handler, the `useEffect` cursor reconciliation,
and the ghost-text computation.  JS strings are modelled as `List Char`
(code-unit sequences) and JS numbers that hold indices as `Int`.
-/

namespace MiniEditor

/-- Decoration style preset names (source line 10). -/
inductive DecorationStyle : Type
  | error
  | warning
  | info
  | highlight
deriving DecidableEq

/-- A decoration highlighting a half-open range of text
(source lines 15–28).  The source field `end` is a Lean keyword,
so it is named `stop` here. -/
structure Decoration : Type where
  start : Int
  stop : Int
  style : DecorationStyle
deriving DecidableEq

/-- The subset of ink `TextProps` attributes that the style table uses;
a `none` field models an absent key on the JS object. -/
structure TextStyle : Type where
  color : Option String
  backgroundColor : Option String
  underline : Option Bool
deriving DecidableEq

/-- The empty JS object `{}`. -/
def emptyStyle : TextStyle := ⟨none, none, none⟩

/-- Style mappings for decoration presets (source lines 33–38). -/
def decorationStyles : DecorationStyle → TextStyle
  | .error => ⟨some "red", none, some true⟩
  | .warning => ⟨some "yellow", none, some true⟩
  | .info => ⟨some "blue", none, some true⟩
  | .highlight => ⟨none, some "yellow", none⟩

/-- `Object.assign(merged, style)`: every key present on `style`
overwrites the corresponding key of `merged`. -/
def objectAssign (merged style : TextStyle) : TextStyle :=
  { color := style.color <|> merged.color
    backgroundColor := style.backgroundColor <|> merged.backgroundColor
    underline := style.underline <|> merged.underline }

/-- `mergeDecorationStyles` (source lines 112–124): `undefined` on the
empty list, otherwise the `Object.assign` fold of the presets of the
decorations, in list order. -/
def mergeDecorationStyles (decorations : List Decoration) : Option TextStyle :=
  if decorations.length = 0 then none
  else
    some (decorations.foldl
      (fun merged dec => objectAssign merged (decorationStyles dec.style)) emptyStyle)

/-- JS `String.prototype.slice` index resolution: negative indices count
from the end, then both are clamped into `[0, length]`. -/
def jsIndex (n : Int) (x : Int) : Nat :=
  (if x < 0 then max (n + x) 0 else min x n).toNat

/-- JS `value.slice(a, b)` on a code-unit list. -/
def jsSlice (l : List Char) (a b : Int) : List Char :=
  (l.take (jsIndex (l.length : Int) b)).drop (jsIndex (l.length : Int) a)

/-- A segment of text to render with specific styling
(source lines 129–135; `end` renamed to `stop`). -/
structure Segment : Type where
  text : List Char
  start : Int
  stop : Int
  isCursor : Bool
  decorations : List Decoration
deriving DecidableEq

/-- Clamp pass of `createSegments` (source lines 148–152):
`Math.max(0, Math.min(·, value.length))` on both bounds. -/
def clampDecorations (value : List Char) (decorations : List Decoration) :
    List Decoration :=
  decorations.map fun dec =>
    ⟨max 0 (min dec.start (value.length : Int)),
      max 0 (min dec.stop (value.length : Int)), dec.style⟩

/-- Cursor split points (source lines 158–163): when the cursor is shown,
`cursorOffset`, and `cursorOffset + 1` when `cursorOffset < length`. -/
def cursorSplitPoints (len cursorOffset : Int) (showCursor : Bool) : List Int :=
  if showCursor then
    cursorOffset :: (if cursorOffset < len then [cursorOffset + 1] else [])
  else []

/-- Decoration split points (source lines 166–171): both bounds of every
clamped decoration whose range is non-empty. -/
def decorationSplitPoints (clamped : List Decoration) : List Int :=
  (clamped.filter fun dec => decide (dec.start < dec.stop)).flatMap
    fun dec => [dec.start, dec.stop]

/-- All candidate split points fed into the JS `Set` (source lines
155–171); insertion order is irrelevant because the set is sorted
before use. -/
def splitPointCandidates (len cursorOffset : Int) (clamped : List Decoration)
    (showCursor : Bool) : List Int :=
  0 :: len :: (cursorSplitPoints len cursorOffset showCursor
    ++ decorationSplitPoints clamped)

/-- `[...splitPoints].sort((a, b) => a - b).filter(p => p >= 0 && p <= value.length)`
(source lines 174–176): the deduplicated candidates in ascending order,
restricted to `[0, length]`. -/
def sortedSplitPoints (value : List Char) (cursorOffset : Int)
    (clamped : List Decoration) (showCursor : Bool) : List Int :=
  (((splitPointCandidates (value.length : Int) cursorOffset clamped
      showCursor).dedup.insertionSort (· ≤ ·)).filter
    fun p => decide (0 ≤ p) && decide (p ≤ (value.length : Int)))

/-- The segment built from one consecutive pair of split points
(source lines 180–198): its text is `value.slice(start, end)`, it is
the cursor segment iff the cursor is shown and it spans exactly
`[cursorOffset, cursorOffset + 1)`, and it carries every clamped
decoration that strictly overlaps it. -/
def mkSegment (value : List Char) (cursorOffset : Int)
    (clamped : List Decoration) (showCursor : Bool) (pr : Int × Int) :
    Segment :=
  { text := jsSlice value pr.1 pr.2
    start := pr.1
    stop := pr.2
    isCursor := showCursor && decide (pr.1 = cursorOffset)
      && decide (pr.2 = cursorOffset + 1)
    decorations := clamped.filter
      fun dec => decide (dec.start < pr.2) && decide (dec.stop > pr.1) }

/-- `createSegments` (source lines 141–202): clamp the decorations,
collect and sort the split points, and map every consecutive pair of
points to a segment. -/
def createSegments (value : List Char) (cursorOffset : Int)
    (decorations : List Decoration) (showCursor : Bool) : List Segment :=
  let clamped := clampDecorations value decorations
  let points := sortedSplitPoints value cursorOffset clamped showCursor
  (points.zip points.tail).map
    (mkSegment value cursorOffset clamped showCursor)

/-- The component state held in `useState` (source lines 218–221):
`cursorOffset` and `cursorWidth` (the spec's paste width). -/
structure EditState : Type where
  cursorOffset : Int
  cursorWidth : Int
deriving DecidableEq

/-- The `useEffect` reconciliation (source lines 225–242): when focused
with a visible cursor and the recorded offset exceeds `length - 1`,
reset the state to `(length, 0)`; otherwise keep the previous state. -/
def reconcile (focus showCursor : Bool) (originalValue : List Char)
    (previousState : EditState) : EditState :=
  if !focus || !showCursor then previousState
  else if previousState.cursorOffset > (originalValue.length : Int) - 1 then
    ⟨(originalValue.length : Int), 0⟩
  else previousState

/-- The key events the `useInput` handler distinguishes (source lines
294–361).  `backspace` and the delete key take the same branch, so one
constructor models both; `char` is a character or pasted-text insertion. -/
inductive KeyEvent : Type
  | upArrow
  | downArrow
  | ctrlC
  | tab
  | shiftTab
  | ret
  | leftArrow
  | rightArrow
  | backspaceOrDelete
  | char (input : List Char)

/-- The outcome of one handler invocation: the next value and state plus
the notifications raised (each callback fires at most once per event). -/
structure EditResult : Type where
  value : List Char
  cursorOffset : Int
  cursorWidth : Int
  onChange : Option (List Char)
  onSubmit : Option (List Char)
  onSuggestionAccept : Option (List Char)
deriving DecidableEq

/-- The clamp-and-commit tail of the handler (source lines 363–378).
Note the source tests the STALE `cursorOffset` — not `nextCursorOffset`
— in both clamp conditions; this is modelled verbatim. -/
def finishEdit (originalValue : List Char) (cursorOffset : Int)
    (nextValue : List Char) (nextCursorOffset nextCursorWidth : Int)
    (accepted : Option (List Char)) : EditResult :=
  let len : Int := (originalValue.length : Int)
  let clamped1 : Int := if cursorOffset < 0 then 0 else nextCursorOffset
  let clamped2 : Int := if cursorOffset > len then len else clamped1
  { value := nextValue
    cursorOffset := clamped2
    cursorWidth := nextCursorWidth
    onChange := if nextValue ≠ originalValue then some nextValue else none
    onSubmit := none
    onSuggestionAccept := accepted }

/-- The `useInput` handler (source lines 293–381), as a pure function of
the configuration (`showCursor`, the optional suggestion provider), the
externally owned value, the component state and one key event.  The
handler only runs when focused (`isActive: focus`), so focus is a
precondition of calling it, not a parameter. -/
def handleInput (showCursor : Bool)
    (getSuggestion : Option (List Char → Option (List Char)))
    (originalValue : List Char) (st : EditState) (ev : KeyEvent) : EditResult :=
  let len : Int := (originalValue.length : Int)
  match ev with
  | .upArrow | .downArrow | .ctrlC | .tab | .shiftTab =>
    ⟨originalValue, st.cursorOffset, st.cursorWidth, none, none, none⟩
  | .ret =>
    ⟨originalValue, st.cursorOffset, st.cursorWidth, none, some originalValue, none⟩
  | .leftArrow =>
    finishEdit originalValue st.cursorOffset originalValue
      (if showCursor then st.cursorOffset - 1 else st.cursorOffset) 0 none
  | .rightArrow =>
    if showCursor then
      match getSuggestion with
      | some suggest =>
        if st.cursorOffset = len then
          match suggest originalValue with
          | some suggestion =>
            if suggestion ≠ [] ∧ originalValue.isPrefixOf suggestion
                ∧ suggestion ≠ originalValue then
              finishEdit originalValue st.cursorOffset suggestion
                (suggestion.length : Int) 0 (some suggestion)
            else
              finishEdit originalValue st.cursorOffset originalValue
                (st.cursorOffset + 1) 0 none
          | none =>
            finishEdit originalValue st.cursorOffset originalValue
              (st.cursorOffset + 1) 0 none
        else
          finishEdit originalValue st.cursorOffset originalValue
            (st.cursorOffset + 1) 0 none
      | none =>
        finishEdit originalValue st.cursorOffset originalValue
          (st.cursorOffset + 1) 0 none
    else
      finishEdit originalValue st.cursorOffset originalValue
        st.cursorOffset 0 none
  | .backspaceOrDelete =>
    if st.cursorOffset > 0 then
      finishEdit originalValue st.cursorOffset
        (jsSlice originalValue 0 (st.cursorOffset - 1)
          ++ jsSlice originalValue st.cursorOffset len)
        (st.cursorOffset - 1) 0 none
    else
      finishEdit originalValue st.cursorOffset originalValue
        st.cursorOffset 0 none
  | .char input =>
    finishEdit originalValue st.cursorOffset
      (jsSlice originalValue 0 st.cursorOffset ++ input
        ++ jsSlice originalValue st.cursorOffset len)
      (st.cursorOffset + (input.length : Int))
      (if input.length > 1 then (input.length : Int) else 0) none

/-- One full event step: run the handler and thread the resulting value
and state forward. -/
def step (showCursor : Bool)
    (getSuggestion : Option (List Char → Option (List Char)))
    (vs : List Char × EditState) (ev : KeyEvent) : List Char × EditState :=
  let r := handleInput showCursor getSuggestion vs.1 vs.2 ev
  (r.value, ⟨r.cursorOffset, r.cursorWidth⟩)

/-- The ghost-text computation (source lines 276–286): non-empty only
when a provider exists, focus is active, the cursor sits at end-of-value
and the provider's answer is a non-empty proper extension of the value;
then it is the suggestion with the value-length prefix sliced off. -/
def ghostText (getSuggestion : Option (List Char → Option (List Char)))
    (focus : Bool) (originalValue : List Char) (cursorOffset : Int) :
    List Char :=
  match getSuggestion with
  | some suggest =>
    if focus ∧ cursorOffset = (originalValue.length : Int) then
      match suggest originalValue with
      | some suggestion =>
        if suggestion ≠ [] ∧ originalValue.isPrefixOf suggestion
            ∧ suggestion ≠ originalValue then
          jsSlice suggestion (originalValue.length : Int)
            (suggestion.length : Int)
        else []
      | none => []
    else []
  | none => []

/-- A concrete suggestion provider used by witness instances: it mirrors
the test suite's provider, completing `"sel"` to `"select * from users"`. -/
def sampleSuggest (v : List Char) : Option (List Char) :=
  if v = "sel".toList then some "select * from users".toList else none

/-! ### Helper lemmas about consecutive pairs of a sorted list -/

theorem zip_tail_lt : ∀ {ps : List Int}, ps.Sorted (· < ·) →
    ∀ {a b : Int}, (a, b) ∈ ps.zip ps.tail → a < b := by
  intro ps
  induction ps with
  | nil => intro _ a b h; simp at h
  | cons x rest ih =>
    intro hs a b h
    cases rest with
    | nil => simp at h
    | cons y r =>
      simp only [List.tail_cons, List.zip_cons_cons, List.mem_cons] at h
      rcases h with h | h
      · injection h with h1 h2
        subst h1; subst h2
        exact List.rel_of_sorted_cons hs _ (by simp)
      · exact ih hs.of_cons h

theorem mem_zip_tail_avoid : ∀ {ps : List Int}, ps.Sorted (· < ·) →
    ∀ {p a b : Int}, p ∈ ps → (a, b) ∈ ps.zip ps.tail → p ≤ a ∨ b ≤ p := by
  intro ps
  induction ps with
  | nil => intro _ p a b hp _; simp at hp
  | cons x rest ih =>
    intro hs p a b hp h
    cases rest with
    | nil => simp at h
    | cons y r =>
      simp only [List.tail_cons, List.zip_cons_cons, List.mem_cons] at h
      rcases h with h | h
      · injection h with h1 h2
        subst h1; subst h2
        rcases List.mem_cons.1 hp with rfl | hp'
        · exact Or.inl le_rfl
        · refine Or.inr ?_
          rcases List.mem_cons.1 hp' with rfl | hp''
          · exact le_rfl
          · exact le_of_lt (List.rel_of_sorted_cons hs.of_cons _ hp'')
      · rcases List.mem_cons.1 hp with rfl | hp'
        · refine Or.inl (le_of_lt ?_)
          exact List.rel_of_sorted_cons hs _ (List.of_mem_zip h).1
        · exact ih hs.of_cons hp' h

theorem chain_zip_tail : ∀ (ps : List Int),
    List.Chain' (fun pq rs : Int × Int => pq.2 = rs.1) (ps.zip ps.tail) := by
  intro ps
  induction ps with
  | nil => simp
  | cons x rest ih =>
    cases rest with
    | nil => simp
    | cons y r =>
      simp only [List.tail_cons, List.zip_cons_cons]
      refine List.chain'_cons'.2 ⟨?_, ih⟩
      intro z hz
      cases r with
      | nil => simp at hz
      | cons w r' =>
        simp only [List.zip_cons_cons, List.head?_cons, Option.mem_def,
          Option.some.injEq] at hz
        subst hz
        rfl

theorem zip_tail_map_snd : ∀ (x : Int) (xs : List Int),
    ((x :: xs).zip xs).map Prod.snd = xs := by
  intro x xs
  induction xs generalizing x with
  | nil => simp
  | cons y ys ih => simp [List.zip_cons_cons, ih y]

theorem sorted_le_getLast : ∀ {ps : List Int} (h : ps ≠ []),
    ps.Sorted (· ≤ ·) → ∀ q ∈ ps, q ≤ ps.getLast h := by
  intro ps
  induction ps with
  | nil => intro h; exact absurd rfl h
  | cons x rest ih =>
    intro h hs q hq
    cases rest with
    | nil =>
      simp only [List.mem_singleton] at hq
      subst hq
      simp [List.getLast]
    | cons y r =>
      rw [List.getLast_cons_cons]
      rcases List.mem_cons.1 hq with rfl | hq'
      · exact List.rel_of_sorted_cons hs _ (List.getLast_mem _)
      · exact ih (by simp) hs.of_cons q hq'

/-! ### Helper lemmas about `jsSlice` -/

theorem jsIndex_nonneg_eq (n x : Int) (hx : 0 ≤ x) :
    jsIndex n x = (min x n).toNat := by
  simp [jsIndex, not_lt.2 hx]

theorem take_drop_glue (v : List Char) (a b c : Nat) (hab : a ≤ b)
    (hbc : b ≤ c) :
    (v.take b).drop a ++ (v.take c).drop b = (v.take c).drop a := by
  rw [List.drop_take, List.drop_take, List.drop_take]
  have h1 : c - a = (b - a) + (c - b) := by omega
  rw [h1, List.take_add, List.drop_drop]
  have h2 : a + (b - a) = b := by omega
  rw [h2]

theorem jsSlice_append (v : List Char) (a b c : Int) (h0 : 0 ≤ a)
    (hab : a ≤ b) (hbc : b ≤ c) :
    jsSlice v a b ++ jsSlice v b c = jsSlice v a c := by
  have hb : 0 ≤ b := le_trans h0 hab
  have hc : 0 ≤ c := le_trans hb hbc
  unfold jsSlice
  rw [jsIndex_nonneg_eq _ _ h0, jsIndex_nonneg_eq _ _ hb,
    jsIndex_nonneg_eq _ _ hc]
  exact take_drop_glue v _ _ _
    (Int.toNat_le_toNat (min_le_min_right _ hab))
    (Int.toNat_le_toNat (min_le_min_right _ hbc))

theorem jsSlice_self (v : List Char) (a : Int) : jsSlice v a a = [] := by
  unfold jsSlice
  rw [List.drop_take]
  simp

theorem jsSlice_full (v : List Char) : jsSlice v 0 (v.length : Int) = v := by
  unfold jsSlice
  rw [jsIndex_nonneg_eq _ _ le_rfl, jsIndex_nonneg_eq _ _ (Int.ofNat_nonneg _)]
  simp

/-! ### Helper lemmas about the sorted split points -/

theorem mem_sortedSplitPoints {value : List Char} {cursorOffset : Int}
    {clamped : List Decoration} {showCursor : Bool} {p : Int} :
    p ∈ sortedSplitPoints value cursorOffset clamped showCursor
      ↔ p ∈ splitPointCandidates (value.length : Int) cursorOffset clamped
            showCursor
        ∧ 0 ≤ p ∧ p ≤ (value.length : Int) := by
  unfold sortedSplitPoints
  simp [List.mem_filter, List.mem_insertionSort, List.mem_dedup]

theorem sortedSplitPoints_sorted (value : List Char) (cursorOffset : Int)
    (clamped : List Decoration) (showCursor : Bool) :
    (sortedSplitPoints value cursorOffset clamped showCursor).Sorted
      (· < ·) := by
  apply List.Sorted.lt_of_le
  · exact List.Pairwise.filter _ (List.sorted_insertionSort _ _)
  · exact List.Nodup.filter _
      ((List.perm_insertionSort _ _).nodup_iff.mpr (List.nodup_dedup _))

theorem zero_mem_sortedSplitPoints (value : List Char) (cursorOffset : Int)
    (clamped : List Decoration) (showCursor : Bool) :
    (0 : Int) ∈ sortedSplitPoints value cursorOffset clamped showCursor :=
  mem_sortedSplitPoints.mpr
    ⟨by simp [splitPointCandidates], le_rfl, Int.ofNat_nonneg _⟩

theorem length_mem_sortedSplitPoints (value : List Char) (cursorOffset : Int)
    (clamped : List Decoration) (showCursor : Bool) :
    ((value.length : Int)) ∈ sortedSplitPoints value cursorOffset clamped
      showCursor :=
  mem_sortedSplitPoints.mpr
    ⟨by simp [splitPointCandidates], Int.ofNat_nonneg _, le_rfl⟩

theorem flatten_map_slice (v : List Char) : ∀ (ps : List Int) (a : Int),
    (a :: ps).Sorted (· ≤ ·) → 0 ≤ a →
    (((a :: ps).zip ps).map (fun pr => jsSlice v pr.1 pr.2)).flatten
      = jsSlice v a ((a :: ps).getLast (List.cons_ne_nil a ps)) := by
  intro ps
  induction ps with
  | nil =>
    intro a _ _
    simp [List.getLast_singleton, jsSlice_self]
  | cons b ps' ih =>
    intro a hs ha
    have hab : a ≤ b := List.rel_of_sorted_cons hs _ (by simp)
    have hb : (0 : Int) ≤ b := le_trans ha hab
    have hlast : b ≤ (b :: ps').getLast (List.cons_ne_nil b ps') :=
      sorted_le_getLast _ hs.of_cons b (by simp)
    rw [List.getLast_cons_cons]
    simp only [List.zip_cons_cons, List.map_cons, List.flatten_cons]
    rw [ih b hs.of_cons hb]
    exact jsSlice_append v a b _ ha hab hlast

/-- C2: for every value, every integer cursor offset (in range or not),
every decoration list and both cursor-visibility settings, the segment
builder returns segments whose texts concatenate to the value exactly,
whose spans are contiguous (each segment's end is the next segment's
start), start at 0, end at the value's length, are strictly increasing,
and never straddle a cursor boundary or a surviving clamped decoration
boundary. -/
theorem claim_C2 (value : List Char) (cursorOffset : Int)
    (decorations : List Decoration) (showCursor : Bool) :
    ((createSegments value cursorOffset decorations showCursor).map
        Segment.text).flatten = value
    ∧ List.Chain' (fun s t => s.stop = t.start)
        (createSegments value cursorOffset decorations showCursor)
    ∧ ((createSegments value cursorOffset decorations showCursor).map
        Segment.start).headD 0 = 0
    ∧ ((createSegments value cursorOffset decorations showCursor).map
        Segment.stop).getLastD (value.length : Int) = (value.length : Int)
    ∧ ((createSegments value cursorOffset decorations showCursor).all
        fun s => decide (s.start < s.stop)) = true
    ∧ ((createSegments value cursorOffset decorations showCursor).all
        fun s =>
          (cursorSplitPoints (value.length : Int) cursorOffset showCursor
              ++ decorationSplitPoints
                (clampDecorations value decorations)).all
            fun p => !(decide (s.start < p) && decide (p < s.stop)))
      = true := by
  have hsort : (sortedSplitPoints value cursorOffset
      (clampDecorations value decorations) showCursor).Sorted (· < ·) :=
    sortedSplitPoints_sorted _ _ _ _
  have hsort_le : (sortedSplitPoints value cursorOffset
      (clampDecorations value decorations) showCursor).Sorted (· ≤ ·) :=
    hsort.le_of_lt
  have h0 := zero_mem_sortedSplitPoints value cursorOffset
    (clampDecorations value decorations) showCursor
  have hlenm := length_mem_sortedSplitPoints value cursorOffset
    (clampDecorations value decorations) showCursor
  have hbounds : ∀ p ∈ sortedSplitPoints value cursorOffset
      (clampDecorations value decorations) showCursor,
      0 ≤ p ∧ p ≤ (value.length : Int) :=
    fun p hp => (mem_sortedSplitPoints.1 hp).2
  obtain ⟨a, rest, hcons⟩ :=
    List.exists_cons_of_ne_nil (List.ne_nil_of_mem h0)
  rw [hcons] at hsort hsort_le h0 hlenm hbounds
  have ha : a = 0 := by
    rcases List.mem_cons.1 h0 with h | h
    · exact h.symm
    · have hlt : a < 0 := List.rel_of_sorted_cons hsort _ h
      have hge : 0 ≤ a := (hbounds a (by simp)).1
      omega
  have hlast : (a :: rest).getLast (List.cons_ne_nil a rest)
      = (value.length : Int) := by
    have h1 : (value.length : Int)
        ≤ (a :: rest).getLast (List.cons_ne_nil a rest) :=
      sorted_le_getLast _ hsort_le _ hlenm
    have h2 := (hbounds _ (List.getLast_mem (List.cons_ne_nil a rest))).2
    omega
  have hsegs : createSegments value cursorOffset decorations showCursor
      = (((a :: rest).zip rest).map
        (mkSegment value cursorOffset (clampDecorations value decorations)
          showCursor)) := by
    rw [show createSegments value cursorOffset decorations showCursor
        = ((sortedSplitPoints value cursorOffset
            (clampDecorations value decorations) showCursor).zip
          (sortedSplitPoints value cursorOffset
            (clampDecorations value decorations) showCursor).tail).map
          (mkSegment value cursorOffset
            (clampDecorations value decorations) showCursor) from rfl,
      hcons]
    rfl
  refine ⟨?_, ?_, ?_, ?_, ?_, ?_⟩
  · rw [hsegs, List.map_map]
    rw [show (Segment.text ∘ mkSegment value cursorOffset
        (clampDecorations value decorations) showCursor)
        = (fun pr : Int × Int => jsSlice value pr.1 pr.2) from rfl]
    rw [flatten_map_slice value rest a hsort_le ha.ge, hlast, ha]
    exact jsSlice_full value
  · rw [hsegs]
    exact (List.chain'_map _).2 (chain_zip_tail (a :: rest))
  · rw [hsegs]
    cases rest with
    | nil => simp
    | cons b r => simp [List.zip_cons_cons, mkSegment, ha]
  · rw [hsegs, List.map_map]
    rw [show (Segment.stop ∘ mkSegment value cursorOffset
        (clampDecorations value decorations) showCursor)
        = (Prod.snd : Int × Int → Int) from rfl]
    rw [zip_tail_map_snd a rest]
    cases rest with
    | nil => rfl
    | cons b r =>
      rw [List.getLast_cons_cons] at hlast
      rw [List.getLastD_eq_getLast?, List.getLast?_eq_getLast _
        (List.cons_ne_nil b r), hlast]
      rfl
  · rw [hsegs]
    refine List.all_eq_true.2 ?_
    intro s hsm
    obtain ⟨⟨pa, pb⟩, hpr, rfl⟩ := List.mem_map.1 hsm
    have := zip_tail_lt hsort hpr
    simpa [mkSegment] using this
  · rw [hsegs]
    refine List.all_eq_true.2 ?_
    intro s hsm
    obtain ⟨⟨pa, pb⟩, hpr, rfl⟩ := List.mem_map.1 hsm
    refine List.all_eq_true.2 ?_
    intro p hpm
    have hpa : pa ∈ a :: rest := (List.of_mem_zip hpr).1
    have hpb : pb ∈ a :: rest :=
      List.mem_of_mem_tail ((List.of_mem_zip hpr).2)
    show (!(decide (pa < p) && decide (p < pb))) = true
    rcases Decidable.em (pa < p ∧ p < pb) with hstr | hstr
    · exfalso
      have h0p : (0 : Int) ≤ p :=
        le_of_lt (lt_of_le_of_lt (hbounds pa hpa).1 hstr.1)
      have hplen : p ≤ (value.length : Int) :=
        le_trans (le_of_lt hstr.2) (hbounds pb hpb).2
      have hpc : p ∈ splitPointCandidates (value.length : Int) cursorOffset
          (clampDecorations value decorations) showCursor :=
        List.mem_cons_of_mem _ (List.mem_cons_of_mem _ hpm)
      have hpm' : p ∈ a :: rest := by
        have := mem_sortedSplitPoints.mpr ⟨hpc, h0p, hplen⟩
        rwa [hcons] at this
      rcases mem_zip_tail_avoid hsort hpm' hpr with h | h
      · exact absurd hstr.1 (not_lt.2 h)
      · exact absurd hstr.2 (not_lt.2 h)
    · rcases Decidable.not_and_iff_or_not.1 hstr with h | h
      · simp [h]
      · simp [h]

theorem jsSlice_zero_eq_take (v : List Char) (b : Int) (h0 : 0 ≤ b)
    (hb : b ≤ (v.length : Int)) : jsSlice v 0 b = v.take b.toNat := by
  unfold jsSlice
  rw [jsIndex_nonneg_eq _ _ le_rfl, jsIndex_nonneg_eq _ _ h0,
    min_eq_left hb, min_eq_left (Int.ofNat_nonneg v.length)]
  simp

theorem jsSlice_to_length_eq_drop (v : List Char) (a : Int) (h0 : 0 ≤ a)
    (ha : a ≤ (v.length : Int)) :
    jsSlice v a (v.length : Int) = v.drop a.toNat := by
  unfold jsSlice
  rw [jsIndex_nonneg_eq _ _ h0, jsIndex_nonneg_eq _ _ (Int.ofNat_nonneg _),
    min_eq_left ha, min_self]
  simp

theorem clampDecorations_filter (value : List Char) (decs : List Decoration) :
    clampDecorations value (decs.filter fun dec =>
        decide (max 0 (min dec.start (value.length : Int))
          < max 0 (min dec.stop (value.length : Int))))
      = (clampDecorations value decs).filter
        fun d => decide (d.start < d.stop) := by
  induction decs with
  | nil => rfl
  | cons d ds ih =>
    by_cases h : max 0 (min d.start (value.length : Int))
        < max 0 (min d.stop (value.length : Int))
    · simp only [clampDecorations, List.map_cons] at ih ⊢
      rw [List.filter_cons_of_pos (by simpa using h),
        List.filter_cons_of_pos (by simpa using h), List.map_cons]
      exact congrArg _ ih
    · simp only [clampDecorations, List.map_cons] at ih ⊢
      rw [List.filter_cons_of_neg (by simpa using h),
        List.filter_cons_of_neg (by simpa using h)]
      exact ih

theorem decorationSplitPoints_filter (clamped : List Decoration) :
    decorationSplitPoints (clamped.filter fun d => decide (d.start < d.stop))
      = decorationSplitPoints clamped := by
  unfold decorationSplitPoints
  rw [List.filter_filter]
  congr 1
  apply List.filter_congr
  intro d _
  simp

/-- C3 counterexample: the decoration `(2, 2)` on `"abcd"` is unchanged
by clamping and has `start >= end`, yet it appears in the attached
decoration list of the middle segment `[1, 3)` — so an empty-range
decoration is NOT dropped from the produced segments' decoration lists. -/
theorem claim_C3_counterexample :
    clampDecorations "abcd".toList [⟨2, 2, .error⟩] = [⟨2, 2, .error⟩]
    ∧ ((createSegments "abcd".toList 0
        [⟨1, 3, .highlight⟩, ⟨2, 2, .error⟩] false).map Segment.decorations)
      = [[], [⟨1, 3, .highlight⟩, ⟨2, 2, .error⟩], []] := by decide

/-- C3 (amended): the builder clamps every decoration's bounds into
`[0, length]`; a decoration whose clamped range is empty or inverted
contributes no split points (dropping all such decorations up front
leaves every segment's text, span and cursor flag unchanged); but such
a decoration still appears in a segment's attached list whenever its
clamped bounds satisfy the strict-overlap test against that segment. -/
theorem claim_C3 (value : List Char) (cursorOffset : Int)
    (decorations : List Decoration) (showCursor : Bool) :
    ((clampDecorations value decorations).all fun d =>
        decide (0 ≤ d.start) && decide (d.start ≤ (value.length : Int))
          && decide (0 ≤ d.stop) && decide (d.stop ≤ (value.length : Int)))
      = true
    ∧ ((createSegments value cursorOffset decorations showCursor).map
        fun s => (s.text, s.start, s.stop, s.isCursor))
      = ((createSegments value cursorOffset
          (decorations.filter fun dec =>
            decide (max 0 (min dec.start (value.length : Int))
              < max 0 (min dec.stop (value.length : Int)))) showCursor).map
        fun s => (s.text, s.start, s.stop, s.isCursor))
    ∧ ((createSegments value cursorOffset decorations showCursor).all
        fun s => decide (s.decorations
          = (clampDecorations value decorations).filter
            fun dec => decide (dec.start < s.stop)
              && decide (dec.stop > s.start))) = true := by
  refine ⟨?_, ?_, ?_⟩
  · refine List.all_eq_true.2 ?_
    intro d hd
    obtain ⟨d₀, _, rfl⟩ := List.mem_map.1 hd
    have h1 : (0 : Int) ≤ max 0 (min d₀.start (value.length : Int)) :=
      le_max_left _ _
    have h2 : max 0 (min d₀.start (value.length : Int))
        ≤ (value.length : Int) :=
      max_le (Int.ofNat_nonneg _) (min_le_right _ _)
    have h3 : (0 : Int) ≤ max 0 (min d₀.stop (value.length : Int)) :=
      le_max_left _ _
    have h4 : max 0 (min d₀.stop (value.length : Int))
        ≤ (value.length : Int) :=
      max_le (Int.ofNat_nonneg _) (min_le_right _ _)
    simp [clampDecorations, h1, h2, h3, h4]
  · have hpoints : sortedSplitPoints value cursorOffset
        (clampDecorations value (decorations.filter fun dec =>
          decide (max 0 (min dec.start (value.length : Int))
            < max 0 (min dec.stop (value.length : Int))))) showCursor
        = sortedSplitPoints value cursorOffset
          (clampDecorations value decorations) showCursor := by
      unfold sortedSplitPoints splitPointCandidates
      rw [clampDecorations_filter, decorationSplitPoints_filter]
    have expand : ∀ (decs : List Decoration),
        ((createSegments value cursorOffset decs showCursor).map
          fun s => (s.text, s.start, s.stop, s.isCursor))
        = ((sortedSplitPoints value cursorOffset
            (clampDecorations value decs) showCursor).zip
          (sortedSplitPoints value cursorOffset
            (clampDecorations value decs) showCursor).tail).map
          (fun pr : Int × Int => (jsSlice value pr.1 pr.2, pr.1, pr.2,
            showCursor && decide (pr.1 = cursorOffset)
              && decide (pr.2 = cursorOffset + 1))) := by
      intro decs
      show ((((sortedSplitPoints value cursorOffset
          (clampDecorations value decs) showCursor).zip
            (sortedSplitPoints value cursorOffset
              (clampDecorations value decs) showCursor).tail).map
          (mkSegment value cursorOffset (clampDecorations value decs)
            showCursor)).map
          fun s => (s.text, s.start, s.stop, s.isCursor)) = _
      rw [List.map_map]
      rfl
    rw [expand decorations, expand (decorations.filter fun dec =>
      decide (max 0 (min dec.start (value.length : Int))
        < max 0 (min dec.stop (value.length : Int)))), hpoints]
  · refine List.all_eq_true.2 ?_
    intro s hsm
    obtain ⟨pr, hpr, rfl⟩ := List.mem_map.1 hsm
    simp [mkSegment]

/-- C7: every produced segment's attached decorations are exactly the
clamped decorations passing the strict-overlap test against its span;
concretely, decoration `(0, 3, error)` on `"selct"` yields the segment
`"sel"` over `[0, 3)` carrying the error decoration and the segment
`"ct"` over `[3, 5)` carrying none. -/
theorem claim_C7 (value : List Char) (cursorOffset : Int)
    (decorations : List Decoration) (showCursor : Bool) :
    ((createSegments value cursorOffset decorations showCursor).all
        fun s => decide (s.decorations
          = (clampDecorations value decorations).filter
            fun dec => decide (dec.start < s.stop)
              && decide (dec.stop > s.start))) = true
    ∧ createSegments "selct".toList 5 [⟨0, 3, .error⟩] true
      = [⟨"sel".toList, 0, 3, false, [⟨0, 3, .error⟩]⟩,
        ⟨"ct".toList, 3, 5, false, []⟩] := by
  constructor
  · refine List.all_eq_true.2 ?_
    intro s hsm
    obtain ⟨pr, hpr, rfl⟩ := List.mem_map.1 hsm
    simp [mkSegment]
  · decide

/-- C8: merged styles are a last-write-wins per-attribute fold in list
order; on `"abcdefgh"` with decorations `(0,5,error)` then
`(2,8,highlight)`, the sub-range `[2, 5)` carries the error's color and
underline together with the highlight's background. -/
theorem claim_C8 :
    (∀ d₁ d₂ : Decoration, mergeDecorationStyles [d₁, d₂]
      = some (objectAssign (objectAssign emptyStyle
          (decorationStyles d₁.style)) (decorationStyles d₂.style)))
    ∧ ((createSegments "abcdefgh".toList 8
        [⟨0, 5, .error⟩, ⟨2, 8, .highlight⟩] true).map
        fun s => (s.start, s.stop, mergeDecorationStyles s.decorations))
      = [(0, 2, some ⟨some "red", none, some true⟩),
        (2, 5, some ⟨some "red", some "yellow", some true⟩),
        (5, 8, some ⟨none, some "yellow", none⟩)] := by
  exact ⟨fun d₁ d₂ => rfl, by decide⟩

/-- C1 (claim refuted by the code): from the in-range state
`("Test", cursorOffset 0)` a single MoveLeft stores `cursorOffset = -1`,
and from `("Test", cursorOffset 4)` a plain MoveRight stores
`length + 1 = 5`: the post-operation clamp tests the stale pre-edit
offset, so the stored offset escapes `[0, length]`. -/
theorem claim_C1 :
    ((0 : Int) ≤ 0 ∧ (0 : Int) ≤ ("Test".toList.length : Int))
    ∧ (handleInput true none "Test".toList ⟨0, 0⟩ .leftArrow).value
      = "Test".toList
    ∧ (handleInput true none "Test".toList ⟨0, 0⟩ .leftArrow).cursorOffset
      = -1
    ∧ (handleInput true none "Test".toList ⟨4, 0⟩ .rightArrow).cursorOffset
      = ("Test".toList.length : Int) + 1 := by decide

theorem isPrefixOf_iff_append : ∀ (v s : List Char),
    v.isPrefixOf s = true ↔ ∃ t, s = v ++ t := by
  intro v
  induction v with
  | nil => intro s; simp [List.isPrefixOf]
  | cons a as ih =>
    intro s
    cases s with
    | nil => simp [List.isPrefixOf]
    | cons b bs =>
      simp only [List.isPrefixOf, Bool.and_eq_true, beq_iff_eq, ih bs,
        List.cons_append, List.cons.injEq]
      constructor
      · rintro ⟨rfl, t, rfl⟩
        exact ⟨t, rfl, rfl⟩
      · rintro ⟨t, rfl, rfl⟩
        exact ⟨rfl, t, rfl⟩

theorem ne_nil_of_proper_extension {v s : List Char}
    (hpre : v.isPrefixOf s = true) (hne : s ≠ v) : s ≠ [] := by
  intro h
  subst h
  obtain ⟨t, ht⟩ := (isPrefixOf_iff_append v []).1 hpre
  have hv := (List.append_eq_nil.1 ht.symm).1
  exact hne hv.symm

theorem length_lt_of_proper_extension {v s : List Char}
    (hpre : v.isPrefixOf s = true) (hne : s ≠ v) : v.length < s.length := by
  obtain ⟨t, rfl⟩ := (isPrefixOf_iff_append v _).1 hpre
  cases t with
  | nil => exact absurd (by simp) hne
  | cons x xs =>
    simp only [List.length_append, List.length_cons]
    omega

theorem finishEdit_in_range (v nextV : List Char) (c nc w : Int)
    (acc : Option (List Char)) (h0 : 0 ≤ c) (h1 : c ≤ (v.length : Int)) :
    finishEdit v c nextV nc w acc
      = ⟨nextV, nc, w, if nextV ≠ v then some nextV else none, none, acc⟩ := by
  simp only [finishEdit]
  rw [if_neg (show ¬ c < 0 by omega),
    if_neg (show ¬ c > (v.length : Int) by omega)]

/-- C9: four MoveLefts from `("Test", 4)` reach cursor 0 and a
DeleteLeft there is a no-op leaving `("Test", 0)`; in general, from any
in-range state with `cursorOffset > 0` DeleteLeft removes exactly the
character before the cursor and decrements the offset, and at
`cursorOffset = 0` it changes nothing and raises no change event. -/
theorem claim_C9 :
    (List.foldl (step true none) ("Test".toList, ⟨4, 0⟩)
        [.leftArrow, .leftArrow, .leftArrow, .leftArrow, .backspaceOrDelete])
      = ("Test".toList, ⟨0, 0⟩)
    ∧ (∀ (showCursor : Bool)
        (provider : Option (List Char → Option (List Char)))
        (v : List Char) (st : EditState),
        0 < st.cursorOffset → st.cursorOffset ≤ (v.length : Int) →
        (handleInput showCursor provider v st .backspaceOrDelete).value
            = v.take (st.cursorOffset - 1).toNat
              ++ v.drop st.cursorOffset.toNat
          ∧ (handleInput showCursor provider v st
              .backspaceOrDelete).cursorOffset = st.cursorOffset - 1
          ∧ (handleInput showCursor provider v st
              .backspaceOrDelete).value.length + 1 = v.length)
    ∧ (∀ (showCursor : Bool)
        (provider : Option (List Char → Option (List Char)))
        (v : List Char) (w : Int),
        (handleInput showCursor provider v ⟨0, w⟩ .backspaceOrDelete).value
            = v
          ∧ (handleInput showCursor provider v ⟨0, w⟩
              .backspaceOrDelete).cursorOffset = 0
          ∧ (handleInput showCursor provider v ⟨0, w⟩
              .backspaceOrDelete).onChange = none) := by
  refine ⟨by decide, ?_, ?_⟩
  · intro sc provider v st h1 h2
    have e1 : jsSlice v 0 (st.cursorOffset - 1)
        = v.take (st.cursorOffset - 1).toNat :=
      jsSlice_zero_eq_take v _ (by omega) (by omega)
    have e2 : jsSlice v st.cursorOffset (v.length : Int)
        = v.drop st.cursorOffset.toNat :=
      jsSlice_to_length_eq_drop v _ (by omega) h2
    simp only [handleInput, if_pos h1, e1, e2,
      finishEdit_in_range v _ st.cursorOffset _ _ _ (by omega) h2]
    refine ⟨by trivial, by trivial, ?_⟩
    simp only [List.length_append, List.length_take, List.length_drop]
    omega
  · intro sc provider v w
    have hb : ¬ ((⟨0, w⟩ : EditState).cursorOffset > 0) := by simp
    simp only [handleInput, if_neg hb,
      finishEdit_in_range v v 0 0 0 none le_rfl (Int.ofNat_nonneg _)]
    refine ⟨by trivial, by trivial, ?_⟩
    simp

/-- C4 counterexample: with focus off, an out-of-band shrink of the
value to `""` with recorded cursor 3 (which exceeds `length - 1 = -1`)
does NOT reset the state — the reconciliation only runs when focused
with a visible cursor, which the claim omits. -/
theorem claim_C4_counterexample :
    ((3 : Int) > (([] : List Char).length : Int) - 1)
    ∧ reconcile false true [] ⟨3, 2⟩ = ⟨3, 2⟩
    ∧ reconcile false true [] ⟨3, 2⟩ ≠ ⟨0, 0⟩ := by decide

/-- C4 (amended): when focus is active and the cursor shown, the
reconciliation resets `(cursorOffset, cursorWidth)` to `(length, 0)`
exactly when the recorded offset exceeds `length - 1` and leaves the
state unchanged otherwise; when focus is off or the cursor hidden it
always leaves the state unchanged. -/
theorem claim_C4 (focus showCursor : Bool) (newValue : List Char)
    (st : EditState) :
    (focus = true → showCursor = true →
      st.cursorOffset > (newValue.length : Int) - 1 →
      reconcile focus showCursor newValue st = ⟨(newValue.length : Int), 0⟩)
    ∧ (focus = true → showCursor = true →
      ¬ st.cursorOffset > (newValue.length : Int) - 1 →
      reconcile focus showCursor newValue st = st)
    ∧ ((focus = false ∨ showCursor = false) →
      reconcile focus showCursor newValue st = st) := by
  refine ⟨?_, ?_, ?_⟩ <;> unfold reconcile
  · intro hf hs h
    subst hf; subst hs
    simp [h]
  · intro hf hs h
    subst hf; subst hs
    simp [h]
  · intro h
    rcases h with h | h <;> subst h <;> simp

theorem claim_C4_witness :
    reconcile true true [] ⟨3, 2⟩ = ⟨0, 0⟩
    ∧ reconcile true true "ab".toList ⟨1, 0⟩ = ⟨1, 0⟩
    ∧ reconcile false true [] ⟨3, 2⟩ = ⟨3, 2⟩ :=
  ⟨(claim_C4 true true [] ⟨3, 2⟩).1 rfl rfl (by decide),
    (claim_C4 true true "ab".toList ⟨1, 0⟩).2.1 rfl rfl (by decide),
    (claim_C4 false true [] ⟨3, 2⟩).2.2 (Or.inl rfl)⟩

theorem claim_C9_witness :
    ((0 : Int) < 2 ∧ (2 : Int) ≤ ("ab".toList.length : Int))
    ∧ (handleInput true none "ab".toList ⟨2, 0⟩ .backspaceOrDelete).value
      = "a".toList
    ∧ (handleInput true none "ab".toList ⟨2, 0⟩
        .backspaceOrDelete).cursorOffset = 1
    ∧ (handleInput true none "ab".toList ⟨0, 5⟩ .backspaceOrDelete).value
      = "ab".toList :=
  ⟨⟨by decide, by decide⟩,
    ((claim_C9.2.1 true none "ab".toList ⟨2, 0⟩ (by decide)
      (by decide)).1).trans (by decide),
    ((claim_C9.2.1 true none "ab".toList ⟨2, 0⟩ (by decide)
      (by decide)).2.1).trans (by decide),
    (claim_C9.2.2 true none "ab".toList 5).1⟩

/-- C5: with the cursor shown and sitting at end-of-value, MoveRight
accepts a valid suggestion (non-empty, proper prefix extension): it
replaces the value with the full suggestion, puts the cursor at its
end and raises exactly one acceptance notification carrying it; with
no valid suggestion (provider answers none or an invalid string, or no
provider at all) it is a plain single-step cursor advance raising no
acceptance. -/
theorem claim_C5 (v s : List Char) (st : EditState)
    (f : List Char → Option (List Char))
    (hc : st.cursorOffset = (v.length : Int)) :
    (f v = some s → v.isPrefixOf s = true → s ≠ v →
      (handleInput true (some f) v st .rightArrow).value = s
      ∧ (handleInput true (some f) v st .rightArrow).cursorOffset
        = (s.length : Int)
      ∧ (handleInput true (some f) v st .rightArrow).onSuggestionAccept
        = some s
      ∧ (handleInput true (some f) v st .rightArrow).onChange = some s)
    ∧ ((f v = none ∨ ∃ s', f v = some s'
          ∧ ¬(s' ≠ [] ∧ v.isPrefixOf s' = true ∧ s' ≠ v)) →
      (handleInput true (some f) v st .rightArrow).value = v
      ∧ (handleInput true (some f) v st .rightArrow).cursorOffset
        = st.cursorOffset + 1
      ∧ (handleInput true (some f) v st .rightArrow).onSuggestionAccept
        = none)
    ∧ ((handleInput true none v st .rightArrow).value = v
      ∧ (handleInput true none v st .rightArrow).cursorOffset
        = st.cursorOffset + 1
      ∧ (handleInput true none v st .rightArrow).onSuggestionAccept
        = none) := by
  have h0 : (0 : Int) ≤ st.cursorOffset := by
    rw [hc]; exact Int.ofNat_nonneg _
  have h1 : st.cursorOffset ≤ (v.length : Int) := le_of_eq hc
  refine ⟨?_, ?_, ?_⟩
  · intro hs hpre hne
    have hsne : s ≠ [] := ne_nil_of_proper_extension hpre hne
    simp only [handleInput, hs, if_pos hc,
      if_pos (show s ≠ [] ∧ v.isPrefixOf s = true ∧ s ≠ v from
        ⟨hsne, hpre, hne⟩),
      finishEdit_in_range v s st.cursorOffset (s.length : Int) 0 (some s)
        h0 h1]
    refine ⟨by trivial, by trivial, by trivial, ?_⟩
    simp [hne]
  · intro h
    rcases h with hnone | ⟨s', hs', hinv⟩
    · simp only [handleInput, hnone, if_pos hc,
        finishEdit_in_range v v st.cursorOffset (st.cursorOffset + 1) 0
          none h0 h1]
      exact ⟨by trivial, by trivial, by trivial⟩
    · simp only [handleInput, hs', if_pos hc, if_neg hinv,
        finishEdit_in_range v v st.cursorOffset (st.cursorOffset + 1) 0
          none h0 h1]
      exact ⟨by trivial, by trivial, by trivial⟩
  · simp only [handleInput,
      finishEdit_in_range v v st.cursorOffset (st.cursorOffset + 1) 0
        none h0 h1]
    exact ⟨by trivial, by trivial, by trivial⟩

theorem claim_C5_witness :
    (handleInput true (some sampleSuggest) "sel".toList ⟨3, 0⟩
        .rightArrow).value = "select * from users".toList
    ∧ (handleInput true (some sampleSuggest) "sel".toList ⟨3, 0⟩
        .rightArrow).onSuggestionAccept
      = some "select * from users".toList
    ∧ (handleInput true (some sampleSuggest) "hi".toList ⟨2, 0⟩
        .rightArrow).cursorOffset = 3
    ∧ (handleInput true (some sampleSuggest) "hi".toList ⟨2, 0⟩
        .rightArrow).onSuggestionAccept = none := by
  have ha := claim_C5 "sel".toList "select * from users".toList ⟨3, 0⟩
    sampleSuggest (by decide)
  have hb := claim_C5 "hi".toList [] ⟨2, 0⟩ sampleSuggest (by decide)
  refine ⟨(ha.1 (by decide) (by decide) (by decide)).1,
    (ha.1 (by decide) (by decide) (by decide)).2.2.1,
    ((hb.2.1 (Or.inl (by decide))).2.1).trans (by decide),
    (hb.2.1 (Or.inl (by decide))).2.2⟩

/-- C6: the ghost text is non-empty exactly when focus is active, the
cursor sits at end-of-value and the provider returns a strict proper
extension of the value; it then equals the suggestion with the
value-length prefix stripped; without a provider there is never ghost
text.  The computation reads the value and never produces a new one. -/
theorem claim_C6 (f : List Char → Option (List Char)) (focus : Bool)
    (v : List Char) (c : Int) :
    (ghostText (some f) focus v c ≠ []
      ↔ focus = true ∧ c = (v.length : Int)
        ∧ ∃ s, f v = some s ∧ v.isPrefixOf s = true
          ∧ v.length < s.length)
    ∧ (∀ s, f v = some s → v.isPrefixOf s = true → s ≠ v →
        focus = true → c = (v.length : Int) →
        ghostText (some f) focus v c = s.drop v.length)
    ∧ ghostText none focus v c = [] := by
  have hcompute : ∀ s, f v = some s → v.isPrefixOf s = true → s ≠ v →
      ghostText (some f) true v (v.length : Int) = s.drop v.length := by
    intro s hs hpre hne
    have hsne : s ≠ [] := ne_nil_of_proper_extension hpre hne
    have hlen : v.length < s.length :=
      length_lt_of_proper_extension hpre hne
    simp only [ghostText, hs,
      if_pos (show (true = true) ∧ (v.length : Int) = (v.length : Int)
        from ⟨rfl, rfl⟩),
      if_pos (show s ≠ [] ∧ v.isPrefixOf s = true ∧ s ≠ v from
        ⟨hsne, hpre, hne⟩)]
    rw [jsSlice_to_length_eq_drop s _ (Int.ofNat_nonneg _)
      (by exact_mod_cast le_of_lt hlen)]
    simp
  refine ⟨⟨?_, ?_⟩, ?_, ?_⟩
  · intro hg
    by_cases hfc : (focus = true) ∧ c = (v.length : Int)
    · obtain ⟨hf, hcc⟩ := hfc
      cases hfv : f v with
      | none =>
        exfalso
        apply hg
        simp [ghostText, hfv, hf, hcc]
      | some s =>
        by_cases hvalid : s ≠ [] ∧ v.isPrefixOf s = true ∧ s ≠ v
        · exact ⟨hf, hcc, s, rfl, hvalid.2.1,
            length_lt_of_proper_extension hvalid.2.1 hvalid.2.2⟩
        · exfalso
          apply hg
          simp only [ghostText, hfv]
          rw [if_pos (show (focus = true) ∧ c = (v.length : Int) from
            ⟨hf, hcc⟩), if_neg hvalid]
    · exfalso
      apply hg
      simp only [ghostText]
      rw [if_neg ?_]
      intro h
      exact hfc ⟨h.1, h.2⟩
  · rintro ⟨hf, hcc, s, hs, hpre, hlen⟩
    have hne : s ≠ v := by
      intro h
      subst h
      omega
    subst hf
    subst hcc
    rw [hcompute s hs hpre hne]
    intro h
    have := List.drop_eq_nil_iff.1 h
    omega
  · intro s hs hpre hnev hf hcc
    subst hf
    subst hcc
    exact hcompute s hs hpre hnev
  · rfl

theorem claim_C6_witness :
    ghostText (some sampleSuggest) true "sel".toList 3
      = "ect * from users".toList
    ∧ ghostText none true "sel".toList 3 = [] := by
  refine ⟨((claim_C6 sampleSuggest true "sel".toList 3).2.1
    "select * from users".toList (by decide) (by decide) (by decide)
    rfl (by decide)).trans (by decide),
    (claim_C6 sampleSuggest true "sel".toList 3).2.2⟩

/-- C10: with the cursor hidden, a MoveRight from any in-range state
never accepts a suggestion, never changes the value and never moves the
cursor, while ghost-text eligibility — which consults only focus and
cursor-at-end, never the cursor-visibility flag — can still produce a
non-empty ghost. -/
theorem claim_C10 (v : List Char) (st : EditState)
    (provider : Option (List Char → Option (List Char)))
    (h0 : 0 ≤ st.cursorOffset) (h1 : st.cursorOffset ≤ (v.length : Int)) :
    ((handleInput false provider v st .rightArrow).value = v
      ∧ (handleInput false provider v st .rightArrow).cursorOffset
        = st.cursorOffset
      ∧ (handleInput false provider v st .rightArrow).onSuggestionAccept
        = none
      ∧ (handleInput false provider v st .rightArrow).onChange = none)
    ∧ ghostText (some sampleSuggest) true "sel".toList 3 ≠ [] := by
  constructor
  · simp only [handleInput,
      finishEdit_in_range v v st.cursorOffset st.cursorOffset 0 none
        h0 h1]
    exact ⟨by trivial, by trivial, by trivial, by simp⟩
  · decide

theorem claim_C10_witness :
    ((handleInput false (some sampleSuggest) "sel".toList ⟨3, 0⟩
        .rightArrow).value = "sel".toList
      ∧ (handleInput false (some sampleSuggest) "sel".toList ⟨3, 0⟩
          .rightArrow).cursorOffset = (⟨3, 0⟩ : EditState).cursorOffset
      ∧ (handleInput false (some sampleSuggest) "sel".toList ⟨3, 0⟩
          .rightArrow).onSuggestionAccept = none
      ∧ (handleInput false (some sampleSuggest) "sel".toList ⟨3, 0⟩
          .rightArrow).onChange = none)
    ∧ ghostText (some sampleSuggest) true "sel".toList 3 ≠ [] :=
  claim_C10 "sel".toList ⟨3, 0⟩ (some sampleSuggest) (by decide)
    (by decide)

end MiniEditor
